import Mathlib

/-!
Shallow embedding of the insight-ml-studio workflow core: the CSV parser and
task-type heuristic from src/lib/utils.ts, the page-level workflow state and
its handlers from src/pages/Index.tsx, the feature/target selection handlers
from src/components/DataTable.tsx, and the prediction runner from
src/components/PredictData.tsx.  JavaScript records (objects) are embedded as
association lists in insertion order with unique keys; JavaScript numbers are
embedded as rationals; the JavaScript value `undefined` is the explicit
`Value.undef`.
-/

namespace InsightML

/-- A JavaScript cell value as the repository uses it: a number, a string, or
`undefined` (present on keys that were assigned an out-of-range cell in the
PredictData parser). -/
inductive Value where
  | num (q : ℚ)
  | str (s : String)
  | undef
deriving DecidableEq

/-- A parsed data row: a JavaScript object, i.e. an association list from
column name to value, in insertion order, with unique keys. -/
abbrev Row := List (String × Value)

/-- JavaScript property assignment `obj[k] = v` on an object embedded as an
association list: overwrite the value in place if the key exists, otherwise
append the new key at the end (JS insertion order).  `{ ...prev, [k]: v }`
has the same meaning on objects with unique keys. -/
def setEntry {κ α : Type} [DecidableEq κ] : List (κ × α) → κ → α → List (κ × α)
  | [], k, v => [(k, v)]
  | p :: t, k, v => if p.1 = k then (k, v) :: t else p :: setEntry t k v

/-- Association-list lookup, the positive half of JavaScript property access:
`some v` when the key is bound to `v`, `none` when it is absent. -/
def getEntry {κ α : Type} [DecidableEq κ] : List (κ × α) → κ → Option α
  | [], _ => none
  | p :: t, k => if p.1 = k then some p.2 else getEntry t k

/-- JavaScript property access `row[k]`: the bound value, or `undefined` when
the key is absent (JS cannot distinguish an absent key from a key bound to
`undefined` through `[]` access). -/
def jsGet (row : Row) (k : String) : Value :=
  (getEntry row k).getD Value.undef

/-- ASCII whitespace test, for the model of String.prototype.trim. -/
def isWsCh (c : Char) : Bool :=
  c = ' ' || c = '\t' || c = '\n' || c = '\r'

/-- Model of the JavaScript builtin String.prototype.trim on the character
list of a string: strip leading and trailing whitespace. -/
def trimChars (cs : List Char) : List Char :=
  ((cs.dropWhile isWsCh).reverse.dropWhile isWsCh).reverse

/-- Model of the JavaScript builtin String.prototype.split with a
one-character separator: splitting the empty string yields one empty piece,
and every separator occurrence starts a new piece. -/
def splitOnChar (sep : Char) : List Char → List (List Char)
  | [] => [[]]
  | c :: cs =>
    if c = sep then [] :: splitOnChar sep cs
    else
      match splitOnChar sep cs with
      | [] => [[c]]
      | h :: t => (c :: h) :: t

/-- Decimal digit test for the Number() model. -/
def isDigitCh (c : Char) : Bool :=
  48 ≤ c.toNat && c.toNat ≤ 57

/-- Value of a decimal digit string. -/
def digitsToNat (cs : List Char) : Nat :=
  cs.foldl (fun n c => 10 * n + (c.toNat - 48)) 0

/-- Model of the JavaScript builtin Number() coercion on a trimmed character
list, restricted to the decimal literals the repository's CSV cells use: the
empty string coerces to 0, an optional sign followed by integer and/or
fractional digits coerces to the corresponding rational, and anything else is
NaN (`none`).  Exponents, hex/octal/binary literals and Infinity are outside
the model. -/
def jsNumberChars (t : List Char) : Option ℚ :=
  if t = [] then some 0
  else
    let neg := t.headD ' ' = '-'
    let body := if t.headD ' ' = '-' || t.headD ' ' = '+' then t.drop 1 else t
    match splitOnChar '.' body with
    | [ip] =>
      if ip ≠ [] ∧ ip.all isDigitCh then
        some (if neg then -(digitsToNat ip : ℚ) else (digitsToNat ip : ℚ))
      else none
    | [ip, fp] =>
      if (ip ≠ [] ∨ fp ≠ []) ∧ ip.all isDigitCh ∧ fp.all isDigitCh then
        let mag : ℚ := (digitsToNat ip : ℚ) + (digitsToNat fp : ℚ) / ((10 : ℚ) ^ fp.length)
        some (if neg then -mag else mag)
      else none
    | _ => none

/-- Model of the JavaScript builtin Number() coercion on a string. -/
def jsNumber (s : String) : Option ℚ :=
  jsNumberChars (trimChars s.data)

/-- One step of the row fold inside utils.parseCSV: for header `hi.2` at
position `hi.1`, assign the numerically coerced cell when it is available and
skip the header entirely when the row has run out of values
(`if (value === undefined) return`). -/
def parseStep (values : List String) (rowData : Row) (hi : Nat × String) : Row :=
  match values[hi.1]? with
  | none => rowData
  | some value =>
    match jsNumber value with
    | some q => setEntry rowData hi.2 (Value.num q)
    | none => setEntry rowData hi.2 (Value.str value)

/-- One data row of utils.parseCSV: `rowData` starts as `{ id: idx }` and each
header position with an available cell is assigned its coerced value. -/
def parseRowData (headers : List String) (idx : Nat) (values : List String) : Row :=
  headers.enum.foldl (parseStep values) [("id", Value.num idx)]

/-- utils.parseCSV: trim, split into lines, first line is the comma-separated
header list (each header trimmed), every later line is a data row indexed
from 0 (each cell trimmed). -/
def parseCSV (csvString : String) : List Row :=
  let rows := splitOnChar '\n' (trimChars csvString.data)
  let headers := (splitOnChar ',' (rows.headD [])).map (fun h => String.mk (trimChars h))
  (rows.drop 1).enum.map (fun ir =>
    parseRowData headers ir.1 ((splitOnChar ',' ir.2).map (fun v => String.mk (trimChars v))))

/-- One step of the row fold inside PredictData.handleFileUploaded: unlike
utils.parseCSV it assigns every header unconditionally, so a header position
past the end of the value list is bound to `undefined` (Number(undefined) is
NaN, hence the raw undefined value is stored). -/
def predictParseStep (values : List String) (row : Row) (hi : Nat × String) : Row :=
  match values[hi.1]? with
  | none => setEntry row hi.2 Value.undef
  | some value =>
    match jsNumber value with
    | some q => setEntry row hi.2 (Value.num q)
    | none => setEntry row hi.2 (Value.str value)

/-- One data row of the CSV parser inside PredictData.handleFileUploaded. -/
def predictParseRow (headers : List String) (idx : Nat) (values : List String) : Row :=
  headers.enum.foldl (predictParseStep values) [("id", Value.num idx)]

/-- The CSV parser inside PredictData.handleFileUploaded. -/
def predictParseCSV (content : String) : List Row :=
  let lines := splitOnChar '\n' (trimChars content.data)
  let headers := (splitOnChar ',' (lines.headD [])).map (fun h => String.mk (trimChars h))
  (lines.drop 1).enum.map (fun ir =>
    predictParseRow headers ir.1 ((splitOnChar ',' ir.2).map (fun v => String.mk (trimChars v))))

/-- The detected learning task kind, utils.determineTaskType's non-null
results. -/
inductive TaskType where
  | classification
  | regression
deriving DecidableEq

/-- utils.determineTaskType: null when the data is empty or no target name is
given; otherwise the heuristic on the number of distinct target values, the
row count and the numeric ratio.  The JS Set of target values collects
`row[targetName]` for every row, `undefined` included, which is the dedup of
the `jsGet` list; `typeof value === 'number'` holds exactly for `Value.num`
cells. -/
def determineTaskType (targetName : String) (data : List Row) : Option TaskType :=
  if data.isEmpty || targetName == "" then none
  else
    let vals := data.map (fun row => jsGet row targetName)
    let uniqueCount := vals.dedup.length
    let numericCount := (vals.filter (fun v => match v with | Value.num _ => true | _ => false)).length
    if uniqueCount ≤ 10 ∨ (uniqueCount : ℚ) / (data.length : ℚ) < 5 / 100 then
      some TaskType.classification
    else if (numericCount : ℚ) / (data.length : ℚ) > 9 / 10 then
      some TaskType.regression
    else some TaskType.classification

/-- The task-type heuristic exactly as the specification states it, on the
distinct count u, the row count n and the count of rows with a numeric target
value: if u is at most 10 or u/n is below 0.05 the task is classification;
otherwise if the numeric fraction exceeds 0.9 it is regression; otherwise it
defaults to classification. -/
def inferTaskTypeSpec (u n numericCount : Nat) : TaskType :=
  if u ≤ 10 ∨ (u : ℚ) / (n : ℚ) < 5 / 100 then TaskType.classification
  else if (numericCount : ℚ) / (n : ℚ) > 9 / 10 then TaskType.regression
  else TaskType.classification

/-- The model catalog of ModelSelection.tsx. -/
inductive ModelType where
  | linear_regression
  | decision_tree
  | random_forest
  | xgboost
  | logistic_regression
deriving DecidableEq

/-- defaultModelParams from ModelSelection.tsx. -/
def defaultModelParams : ModelType → List (String × ℚ)
  | ModelType.linear_regression => []
  | ModelType.logistic_regression => []
  | ModelType.decision_tree => [("max_depth", 5), ("min_samples_split", 2)]
  | ModelType.random_forest => [("n_estimators", 100), ("max_depth", 5), ("min_samples_split", 2)]
  | ModelType.xgboost => [("n_estimators", 100), ("learning_rate", 1 / 10), ("max_depth", 5)]

/-- The workflow steps of Index.tsx. -/
inductive WorkflowStep where
  | upload
  | select
  | train
  | evaluate
  | predict
deriving DecidableEq

/-- One entry of the trainedModel record built by
handleTrainingCompleteMulti: `{ type: modelType, params: multiModelParams[modelType] }`;
the params lookup is `undefined` (`none`) when the kind has no stored
parameter mapping. -/
structure TrainedEntry where
  type : ModelType
  params : Option (List (String × ℚ))
deriving DecidableEq

/-- The state hooks of the Index page, one field per useState call.  The
payload type α stands for the untyped (`any`) training-result object a model
card reports; the page stores it without inspecting it.  Nullable fields are
options; the JS object-valued fields are association lists. -/
structure IndexState (α : Type) where
  currentStep : WorkflowStep
  data : Option (List Row)
  selectedFeatures : List String
  selectedTarget : String
  taskType : Option TaskType
  selectedModel : Option ModelType
  modelParams : List (String × ℚ)
  trainedModel : Option (List (ModelType × TrainedEntry))
  modelMetrics : Option α
  featureImportance : List (String × ℚ)
  predictions : List (ℚ × ℚ)
  selectedModels : List ModelType
  modelResults : List (ModelType × α)
  multiModelParams : List (ModelType × List (String × ℚ))

/-- The initial state of the Index page: every useState initializer. -/
def initialState {α : Type} : IndexState α :=
  { currentStep := WorkflowStep.upload
    data := none
    selectedFeatures := []
    selectedTarget := ""
    taskType := none
    selectedModel := none
    modelParams := []
    trainedModel := none
    modelMetrics := none
    featureImportance := []
    predictions := []
    selectedModels := []
    modelResults := []
    multiModelParams := [] }

/-- Index.navigateToStep: set the current step when its gate passes, do
nothing otherwise.  The gates are JS truthiness tests: a loaded dataset for
select, a non-empty feature list and a non-empty target for train, a non-null
trainedModel for evaluate and predict. -/
def navigateToStep {α : Type} (st : IndexState α) (step : WorkflowStep) : IndexState α :=
  if step = WorkflowStep.upload ∨
      (step = WorkflowStep.select ∧ st.data.isSome) ∨
      (step = WorkflowStep.train ∧ 0 < st.selectedFeatures.length ∧ st.selectedTarget ≠ "") ∨
      (step = WorkflowStep.evaluate ∧ st.trainedModel.isSome) ∨
      (step = WorkflowStep.predict ∧ st.trainedModel.isSome) then
    { st with currentStep := step }
  else st

/-- Index.handleFileUploaded on string content: parse the CSV, replace the
dataset, and reset the feature selection, the target and the task type.  No
other state hook is written. -/
def handleFileUploaded {α : Type} (st : IndexState α) (content : String) : IndexState α :=
  { st with
      data := some (parseCSV content)
      selectedFeatures := []
      selectedTarget := ""
      taskType := none }

/-- Index.handleTrainingCompleteMulti: record the result under its model
kind, extend trainedModel, then compare the pre-update result count plus one
(`Object.keys(modelResults).length + 1`) against the number of selected
models and move to evaluate on equality. -/
def handleTrainingCompleteMulti {α : Type} (st : IndexState α) (modelInfo : α)
    (modelType : ModelType) : IndexState α :=
  let newResults := setEntry st.modelResults modelType modelInfo
  let newTrained := setEntry (st.trainedModel.getD []) modelType
    { type := modelType, params := getEntry st.multiModelParams modelType }
  let completedModels := st.modelResults.length + 1
  let st1 := { st with modelResults := newResults, trainedModel := some newTrained }
  if completedModels = st.selectedModels.length then
    { st1 with currentStep := WorkflowStep.evaluate }
  else st1

/-- DataTable.handleFeatureClick as a function of the selection state: the
current target cannot be toggled as a feature; otherwise membership in the
feature list is flipped. -/
def handleFeatureClick (selectedFeatures : List String) (selectedTarget : String)
    (column : String) : List String :=
  if column = selectedTarget then selectedFeatures
  else if selectedFeatures.contains column then
    selectedFeatures.filter (fun f => f != column)
  else selectedFeatures ++ [column]

/-- DataTable.handleTargetClick as a function of the selection state,
returning the new target and the new feature list: clicking the current
target deselects it; clicking another column makes it the target and removes
it from the feature list if it was selected. -/
def handleTargetClick (selectedFeatures : List String) (selectedTarget : String)
    (column : String) : String × List String :=
  if column = selectedTarget then ("", selectedFeatures)
  else if selectedFeatures.contains column then
    (column, selectedFeatures.filter (fun f => f != column))
  else (column, selectedFeatures)

/-- PredictData.handlePredict on one test row.  `rnd` is the Math.random()
draw in [0, 1) used by the regression branch and `cls` the class index
`Math.floor(Math.random() * 3)` used by the classification branch.  The
regression prediction sums the numeric values of the row's feature fields,
divides by the feature count and perturbs; the classification prediction is
one of three class labels.  Either way the row is written through
`predictionRow.prediction = ...` on a copy of the row. -/
def predictRow (taskType : TaskType) (featureNames : List String) (rnd : ℚ)
    (cls : Fin 3) (row : Row) : Row :=
  match taskType with
  | TaskType.regression =>
    let baseValue := (row.filter (fun p => featureNames.contains p.1)).foldl
      (fun sum p => sum + (match p.2 with | Value.num q => q | _ => 0)) 0
    setEntry row "prediction"
      (Value.num (max 0 (baseValue / (featureNames.length : ℚ) + (rnd - 5 / 10) * 5)))
  | TaskType.classification =>
    setEntry row "prediction"
      (Value.str (["Class A", "Class B", "Class C"].getD cls.1 ""))

/-- PredictData.handlePredict over the uploaded test data, with one random
draw per row supplied by the streams `rnd` and `cls`. -/
def handlePredict (taskType : TaskType) (featureNames : List String)
    (rnd : Nat → ℚ) (cls : Nat → Fin 3) (testData : List Row) : List Row :=
  testData.enum.map (fun ir => predictRow taskType featureNames (rnd ir.1) (cls ir.1) ir.2)

/-! Generic facts about JS-object assignment on association lists. -/

theorem getEntry_setEntry_self {κ α : Type} [DecidableEq κ] (m : List (κ × α)) (k : κ) (v : α) :
    getEntry (setEntry m k v) k = some v := by
  induction m with
  | nil => simp [setEntry, getEntry]
  | cons p t ih =>
    by_cases h : p.1 = k
    · simp [setEntry, getEntry, h]
    · simp [setEntry, getEntry, h, ih]

theorem getEntry_setEntry_ne {κ α : Type} [DecidableEq κ] (m : List (κ × α)) (k kk : κ) (v : α)
    (h : kk ≠ k) : getEntry (setEntry m k v) kk = getEntry m kk := by
  induction m with
  | nil => simp [setEntry, getEntry, Ne.symm h]
  | cons p t ih =>
    by_cases hp : p.1 = k
    · simp [setEntry, getEntry, hp, Ne.symm h]
    · simp [setEntry, getEntry, hp, ih]

theorem mem_keys_setEntry {κ α : Type} [DecidableEq κ] (m : List (κ × α)) (k : κ) (v : α) :
    k ∈ (setEntry m k v).map Prod.fst := by
  induction m with
  | nil => simp [setEntry]
  | cons p t ih =>
    by_cases hp : p.1 = k
    · simp [setEntry, hp]
    · simp only [setEntry, hp, if_false, List.map_cons, List.mem_cons]
      exact Or.inr ih

theorem keys_setEntry_sub {κ α : Type} [DecidableEq κ] (m : List (κ × α)) (k kk : κ) (v : α)
    (h : kk ∈ (setEntry m k v).map Prod.fst) : kk ∈ m.map Prod.fst ∨ kk = k := by
  induction m with
  | nil => simp [setEntry] at h; exact Or.inr h
  | cons p t ih =>
    by_cases hp : p.1 = k
    · simp only [setEntry, hp, if_true, List.map_cons, List.mem_cons] at h
      rcases h with h | h
      · exact Or.inr h
      · exact Or.inl (by rw [List.map_cons]; exact List.mem_cons_of_mem _ h)
    · simp only [setEntry, hp, if_false, List.map_cons, List.mem_cons] at h
      rcases h with h | h
      · exact Or.inl (by simp [List.map_cons, h])
      · rcases ih h with h2 | h2
        · exact Or.inl (by rw [List.map_cons]; exact List.mem_cons_of_mem _ h2)
        · exact Or.inr h2

theorem setEntry_length_of_mem {κ α : Type} [DecidableEq κ] (m : List (κ × α)) (k : κ) (v : α)
    (h : k ∈ m.map Prod.fst) : (setEntry m k v).length = m.length := by
  induction m with
  | nil => simp at h
  | cons p t ih =>
    by_cases hp : p.1 = k
    · simp [setEntry, hp]
    · simp only [List.map_cons, List.mem_cons] at h
      rcases h with h | h
      · exact absurd h.symm hp
      · simp [setEntry, hp, ih h]

theorem setEntry_of_not_mem {κ α : Type} [DecidableEq κ] (m : List (κ × α)) (k : κ) (v : α)
    (h : k ∉ m.map Prod.fst) : setEntry m k v = m ++ [(k, v)] := by
  induction m with
  | nil => simp [setEntry]
  | cons p t ih =>
    simp only [List.map_cons, List.mem_cons, not_or] at h
    have hp : ¬p.1 = k := fun hpk => h.1 hpk.symm
    simp [setEntry, hp, ih h.2]

theorem setEntry_keys_nodup {κ α : Type} [DecidableEq κ] (m : List (κ × α)) (k : κ) (v : α)
    (h : (m.map Prod.fst).Nodup) : ((setEntry m k v).map Prod.fst).Nodup := by
  induction m with
  | nil => simp [setEntry]
  | cons p t ih =>
    simp only [List.map_cons, List.nodup_cons] at h
    by_cases hp : p.1 = k
    · simp only [setEntry, hp, if_true, List.map_cons, List.nodup_cons]
      exact ⟨hp ▸ h.1, h.2⟩
    · simp only [setEntry, hp, if_false, List.map_cons, List.nodup_cons]
      refine ⟨fun hmem => ?_, ih h.2⟩
      rcases keys_setEntry_sub t k p.1 v hmem with h2 | h2
      · exact h.1 h2
      · exact hp h2

theorem filter_setEntry_self {κ α : Type} [DecidableEq κ] (m : List (κ × α)) (k : κ) (v : α)
    (h : (m.map Prod.fst).Nodup) :
    (setEntry m k v).filter (fun p => decide (p.1 = k)) = [(k, v)] := by
  induction m with
  | nil => simp [setEntry]
  | cons p t ih =>
    simp only [List.map_cons, List.nodup_cons] at h
    by_cases hp : p.1 = k
    · simp only [setEntry, hp, if_true]
      rw [List.filter_cons_of_pos (by simp)]
      have : t.filter (fun p => decide (p.1 = k)) = [] := by
        rw [List.filter_eq_nil_iff]
        intro a ha
        simp only [decide_eq_true_eq]
        intro hak
        exact (hp ▸ h.1) (hak ▸ List.mem_map_of_mem Prod.fst ha)
      simp [this]
    · simp only [setEntry, hp, if_false]
      rw [List.filter_cons_of_neg (by simpa using hp)]
      exact ih h.2

/-! Facts about the row fold of utils.parseCSV. -/

theorem parseStep_empty_cell (values : List String) (acc : Row) (i : Nat) (s : String)
    (hv : values[i]? = some "") :
    parseStep values acc (i, s) = setEntry acc s (Value.num 0) := by
  unfold parseStep
  simp only [hv]
  rfl

theorem getEntry_foldl_parseStep (values : List String) (l : List (Nat × String)) (acc : Row)
    (kk : String) (h : ∀ p ∈ l, p.2 ≠ kk) :
    getEntry (l.foldl (parseStep values) acc) kk = getEntry acc kk := by
  induction l generalizing acc with
  | nil => rfl
  | cons p t ih =>
    rw [List.foldl_cons, ih _ (fun q hq => h q (List.mem_cons_of_mem _ hq))]
    unfold parseStep
    split
    · rfl
    · split <;> exact getEntry_setEntry_ne _ _ _ _ (Ne.symm (h p (List.mem_cons_self p t)))

theorem keys_parseStep_sub (values : List String) (acc : Row) (p : Nat × String) (kk : String)
    (h : kk ∈ (parseStep values acc p).map Prod.fst) :
    kk ∈ acc.map Prod.fst ∨ (p.1 < values.length ∧ kk = p.2) := by
  unfold parseStep at h
  cases hv : values[p.1]? with
  | none => rw [hv] at h; exact Or.inl h
  | some value =>
    rw [hv] at h
    dsimp only at h
    have hplt : p.1 < values.length := by
      by_contra hge
      rw [List.getElem?_eq_none (by omega)] at hv
      cases hv
    cases hj : jsNumber value with
    | some q =>
      rw [hj] at h
      dsimp only at h
      rcases keys_setEntry_sub _ _ _ _ h with h2 | h2
      · exact Or.inl h2
      · exact Or.inr ⟨hplt, h2⟩
    | none =>
      rw [hj] at h
      dsimp only at h
      rcases keys_setEntry_sub _ _ _ _ h with h2 | h2
      · exact Or.inl h2
      · exact Or.inr ⟨hplt, h2⟩

theorem keys_foldl_parseStep (values : List String) (l : List (Nat × String)) (acc : Row) :
    ∀ kk ∈ (l.foldl (parseStep values) acc).map Prod.fst,
      kk ∈ acc.map Prod.fst ∨ ∃ i s, (i, s) ∈ l ∧ i < values.length ∧ kk = s := by
  induction l generalizing acc with
  | nil => intro kk hkk; exact Or.inl hkk
  | cons p t ih =>
    intro kk hkk
    rw [List.foldl_cons] at hkk
    rcases ih (parseStep values acc p) kk hkk with h1 | ⟨i, s, hmem, hilt, rfl⟩
    · rcases keys_parseStep_sub values acc p kk h1 with h2 | ⟨hplt, h2⟩
      · exact Or.inl h2
      · exact Or.inr ⟨p.1, p.2, by simp, hplt, h2⟩
    · exact Or.inr ⟨i, kk, List.mem_cons_of_mem _ hmem, hilt, rfl⟩

theorem getEntry_enumFrom_empty_cell (values : List String) (hs : List String) (n : Nat)
    (acc : Row) (i : Nat) (hlt : i < hs.length) (hv : values[n + i]? = some "")
    (hlast : hs.get ⟨i, hlt⟩ ∉ hs.drop (i + 1)) :
    getEntry ((List.enumFrom n hs).foldl (parseStep values) acc) (hs.get ⟨i, hlt⟩)
      = some (Value.num 0) := by
  induction hs generalizing n acc i with
  | nil => simp at hlt
  | cons hd tl ih =>
    cases i with
    | zero =>
      have hkey : (hd :: tl).get ⟨0, hlt⟩ = hd := rfl
      rw [hkey] at hlast ⊢
      have hdtl : hd ∉ tl := by simpa using hlast
      rw [List.enumFrom_cons, List.foldl_cons]
      rw [getEntry_foldl_parseStep values _ _ hd ?hne]
      · rw [parseStep_empty_cell values acc n hd (by simpa using hv)]
        exact getEntry_setEntry_self _ _ _
      case hne =>
        intro q hq hq2
        have hsnd : q.2 ∈ tl := by
          have := List.enumFrom_map_snd (n + 1) tl
          exact this ▸ List.mem_map_of_mem Prod.snd hq
        exact hdtl (hq2 ▸ hsnd)
    | succ j =>
      have hjlt : j < tl.length := by simpa using hlt
      have hkey : (hd :: tl).get ⟨j + 1, hlt⟩ = tl.get ⟨j, hjlt⟩ := rfl
      rw [hkey] at hlast ⊢
      rw [List.enumFrom_cons, List.foldl_cons]
      have hv2 : values[(n + 1) + j]? = some "" := by
        have : (n + 1) + j = n + (j + 1) := by omega
        rw [this]; exact hv
      have hlast2 : tl.get ⟨j, hjlt⟩ ∉ tl.drop (j + 1) := by simpa using hlast
      exact ih (n + 1) (parseStep values acc (n, hd)) j hjlt hv2 hlast2

/-! Claim theorems. -/

theorem handleTrainingCompleteMulti_modelResults {α : Type} (st : IndexState α) (r : α)
    (k : ModelType) :
    (handleTrainingCompleteMulti st r k).modelResults = setEntry st.modelResults k r := by
  unfold handleTrainingCompleteMulti
  dsimp only
  split <;> rfl

/-- C4: navigateToStep moves the current step to train exactly when at least
one feature is selected and a target is set; when the guard fails the call
leaves the whole state unchanged and raises no error. -/
theorem navigateToStep_train_guard {α : Type} (st : IndexState α) :
    (0 < st.selectedFeatures.length ∧ st.selectedTarget ≠ "" →
      navigateToStep st WorkflowStep.train = { st with currentStep := WorkflowStep.train }) ∧
    (¬(0 < st.selectedFeatures.length ∧ st.selectedTarget ≠ "") →
      navigateToStep st WorkflowStep.train = st) := by
  constructor
  · intro h
    unfold navigateToStep
    rw [if_pos]
    exact Or.inr (Or.inr (Or.inl ⟨rfl, h⟩))
  · intro h
    unfold navigateToStep
    rw [if_neg]
    rintro (hc | ⟨hc, -⟩ | ⟨-, hg⟩ | ⟨hc, -⟩ | ⟨hc, -⟩)
    · exact absurd hc (by decide)
    · exact absurd hc (by decide)
    · exact h hg
    · exact absurd hc (by decide)
    · exact absurd hc (by decide)

/-- A reachable selection state used to instantiate C4's guard. -/
def guardState : IndexState Nat :=
  { (initialState : IndexState Nat) with
      currentStep := WorkflowStep.select
      data := some [[("sepal_length", Value.num 5), ("species", Value.str "setosa")]]
      selectedFeatures := ["sepal_length"]
      selectedTarget := "species" }

/-- Witness for C4 at a concrete state whose guard holds. -/
theorem navigateToStep_train_guard_witness :
    (0 < guardState.selectedFeatures.length ∧ guardState.selectedTarget ≠ "") ∧
    navigateToStep guardState WorkflowStep.train
      = { guardState with currentStep := WorkflowStep.train } :=
  ⟨⟨by decide, by decide⟩, (navigateToStep_train_guard guardState).1 ⟨by decide, by decide⟩⟩

/-- C5: the selection handlers keep the target out of the feature set:
toggling the current target as a feature is rejected with the feature list
unchanged, and selecting any other column as target makes it the target and
removes it from the feature list, whatever the prior feature list was. -/
theorem selection_target_not_feature (selectedFeatures : List String)
    (selectedTarget column : String) :
    handleFeatureClick selectedFeatures selectedTarget selectedTarget = selectedFeatures ∧
    (column ≠ selectedTarget →
      (handleTargetClick selectedFeatures selectedTarget column).1 = column ∧
      column ∉ (handleTargetClick selectedFeatures selectedTarget column).2) := by
  refine ⟨?_, fun h => ?_⟩
  · unfold handleFeatureClick
    rw [if_pos rfl]
  · unfold handleTargetClick
    rw [if_neg h]
    by_cases hm : selectedFeatures.contains column
    · rw [if_pos hm]
      exact ⟨rfl, by simp [List.mem_filter]⟩
    · rw [if_neg hm]
      exact ⟨rfl, by simpa using hm⟩

/-- Witness for C5 at a concrete selection state. -/
theorem selection_target_not_feature_witness :
    handleFeatureClick ["height", "weight"] "label" "label" = ["height", "weight"] ∧
    ("weight" ≠ "label") ∧
    (handleTargetClick ["height", "weight"] "label" "weight").1 = "weight" ∧
    "weight" ∉ (handleTargetClick ["height", "weight"] "label" "weight").2 :=
  ⟨(selection_target_not_feature ["height", "weight"] "label" "weight").1,
   by decide,
   ((selection_target_not_feature ["height", "weight"] "label" "weight").2 (by decide)).1,
   ((selection_target_not_feature ["height", "weight"] "label" "weight").2 (by decide)).2⟩

/-- C6: starting from an unset target, clicking a column as target and then
clicking it again returns the target to unset. -/
theorem target_toggle_roundtrip (selectedFeatures : List String) (column : String) :
    (handleTargetClick (handleTargetClick selectedFeatures "" column).2
      (handleTargetClick selectedFeatures "" column).1 column).1 = "" := by
  have h1 : (handleTargetClick selectedFeatures "" column).1 = column := by
    by_cases h : column = ""
    · subst h
      simp [handleTargetClick]
    · unfold handleTargetClick
      rw [if_neg h]
      by_cases hm : column ∈ selectedFeatures <;> simp [hm]
  rw [h1]
  conv_lhs => rw [handleTargetClick]
  rw [if_pos rfl]

/-- C2 counterexample: loading a new dataset does not clear the recorded
per-model results (nor the other downstream training state): from a state
with a recorded decision_tree result, handleFileUploaded leaves that result
in place. -/
theorem handleFileUploaded_keeps_results :
    (handleFileUploaded
      { (initialState : IndexState Nat) with modelResults := [(ModelType.decision_tree, 7)] }
      "a\n1").modelResults = [(ModelType.decision_tree, 7)] ∧
    [(ModelType.decision_tree, 7)] ≠ ([] : List (ModelType × Nat)) := by decide

/-- C2 (amended): handleFileUploaded replaces the dataset with the parsed
rows and clears the feature selection, the target and the task type, while
leaving every other field — in particular the trained models, metrics,
per-model results and predictions — unchanged. -/
theorem handleFileUploaded_spec {α : Type} (st : IndexState α) (content : String) :
    (handleFileUploaded st content).data = some (parseCSV content) ∧
    (handleFileUploaded st content).selectedFeatures = [] ∧
    (handleFileUploaded st content).selectedTarget = "" ∧
    (handleFileUploaded st content).taskType = none ∧
    (handleFileUploaded st content).currentStep = st.currentStep ∧
    (handleFileUploaded st content).selectedModel = st.selectedModel ∧
    (handleFileUploaded st content).modelParams = st.modelParams ∧
    (handleFileUploaded st content).trainedModel = st.trainedModel ∧
    (handleFileUploaded st content).modelMetrics = st.modelMetrics ∧
    (handleFileUploaded st content).featureImportance = st.featureImportance ∧
    (handleFileUploaded st content).predictions = st.predictions ∧
    (handleFileUploaded st content).selectedModels = st.selectedModels ∧
    (handleFileUploaded st content).modelResults = st.modelResults ∧
    (handleFileUploaded st content).multiModelParams = st.multiModelParams :=
  ⟨rfl, rfl, rfl, rfl, rfl, rfl, rfl, rfl, rfl, rfl, rfl, rfl, rfl, rfl⟩

/-- The Index.tsx state in which decision_tree and random_forest are the
selected models, decision_tree already has a recorded result, random_forest
does not, and the user is on the train step. -/
def trainingRaceState : IndexState Nat :=
  { (initialState : IndexState Nat) with
      currentStep := WorkflowStep.train
      data := some [[("t", Value.num 1)]]
      selectedFeatures := ["f"]
      selectedTarget := "t"
      taskType := some TaskType.classification
      selectedModels := [ModelType.decision_tree, ModelType.random_forest]
      modelResults := [(ModelType.decision_tree, 0)]
      multiModelParams := [(ModelType.decision_tree, defaultModelParams ModelType.decision_tree),
        (ModelType.random_forest, defaultModelParams ModelType.random_forest)] }

/-- C1: re-invoking completeTraining for the already-recorded decision_tree
advances the step to evaluate although the selected random_forest still has
no recorded result: the handler compares the pre-update result count plus
one with the selected count instead of checking that every selected kind has
a recorded result. -/
theorem completeTraining_premature_advance :
    ModelType.random_forest ∈ trainingRaceState.selectedModels ∧
    getEntry trainingRaceState.modelResults ModelType.random_forest = none ∧
    (handleTrainingCompleteMulti trainingRaceState 1 ModelType.decision_tree).currentStep
      = WorkflowStep.evaluate ∧
    getEntry (handleTrainingCompleteMulti trainingRaceState 1 ModelType.decision_tree).modelResults
      ModelType.random_forest = none := by decide

/-- C7: recording a training result twice for the same kind overwrites the
first result: after the two calls the aggregator holds exactly one entry for
the kind, holding the second result, and its size is unchanged by the second
call. -/
theorem completeTraining_overwrites {α : Type} (st : IndexState α) (k : ModelType) (r1 r2 : α)
    (hnd : (st.modelResults.map Prod.fst).Nodup) :
    (handleTrainingCompleteMulti (handleTrainingCompleteMulti st r1 k) r2 k).modelResults.filter
        (fun p => decide (p.1 = k)) = [(k, r2)] ∧
    (handleTrainingCompleteMulti (handleTrainingCompleteMulti st r1 k) r2 k).modelResults.length
      = (handleTrainingCompleteMulti st r1 k).modelResults.length := by
  simp only [handleTrainingCompleteMulti_modelResults]
  exact ⟨filter_setEntry_self _ _ _ (setEntry_keys_nodup _ _ _ hnd),
    setEntry_length_of_mem _ _ _ (mem_keys_setEntry _ _ _)⟩

/-- Witness for C7 from the initial state. -/
theorem completeTraining_overwrites_witness :
    (((initialState : IndexState Nat).modelResults.map Prod.fst).Nodup) ∧
    ((handleTrainingCompleteMulti
        (handleTrainingCompleteMulti (initialState : IndexState Nat) 1 ModelType.decision_tree)
        2 ModelType.decision_tree).modelResults.filter
          (fun p => decide (p.1 = ModelType.decision_tree)) = [(ModelType.decision_tree, 2)] ∧
      (handleTrainingCompleteMulti
        (handleTrainingCompleteMulti (initialState : IndexState Nat) 1 ModelType.decision_tree)
        2 ModelType.decision_tree).modelResults.length
        = (handleTrainingCompleteMulti (initialState : IndexState Nat) 1
            ModelType.decision_tree).modelResults.length) :=
  ⟨by decide, completeTraining_overwrites (initialState : IndexState Nat)
    ModelType.decision_tree 1 2 (by decide)⟩

/-- C3: for every non-empty dataset and named target,
determineTaskType computes exactly the specification heuristic applied to the
distinct count of target values, the row count and the count of rows whose
target value is numeric. -/
theorem determineTaskType_follows_heuristic (targetName : String) (data : List Row)
    (hne : data ≠ []) (ht : targetName ≠ "") :
    determineTaskType targetName data =
      some (inferTaskTypeSpec ((data.map (fun row => jsGet row targetName)).dedup.length)
        data.length
        (((data.map (fun row => jsGet row targetName)).filter
          (fun v => match v with | Value.num _ => true | _ => false)).length)) := by
  unfold determineTaskType inferTaskTypeSpec
  rw [if_neg (by simp [hne, ht])]
  rw [apply_ite some, apply_ite some]

/-- Witness for C3 on a one-row dataset. -/
theorem determineTaskType_follows_heuristic_witness :
    ([[("t", Value.num 1)]] ≠ ([] : List Row)) ∧ ("t" ≠ "") ∧
    determineTaskType "t" [[("t", Value.num 1)]] =
      some (inferTaskTypeSpec
        (([[("t", Value.num 1)]].map (fun row => jsGet row "t")).dedup.length)
        ([[("t", Value.num 1)]] : List Row).length
        ((([[("t", Value.num 1)]].map (fun row => jsGet row "t")).filter
          (fun v => match v with | Value.num _ => true | _ => false)).length)) :=
  ⟨by decide, by decide,
   determineTaskType_follows_heuristic "t" [[("t", Value.num 1)]] (by decide) (by decide)⟩

/-- C10: a cell that is present but empty (two adjacent delimiters) is
stored as the number 0 under its header, not as an empty string: for any
header position whose cell is the empty string and whose name does not recur
later in the header list, the parsed row's value at that header is the
number 0. -/
theorem parseCSV_empty_cell_zero (headers : List String) (idx : Nat) (values : List String)
    (i : Nat) (hlt : i < headers.length) (hv : values[i]? = some "")
    (hlast : headers.get ⟨i, hlt⟩ ∉ headers.drop (i + 1)) :
    jsGet (parseRowData headers idx values) (headers.get ⟨i, hlt⟩) = Value.num 0 := by
  unfold parseRowData jsGet
  rw [List.enum_eq_enumFrom]
  rw [getEntry_enumFrom_empty_cell values headers 0 _ i hlt (by simpa using hv) hlast]
  rfl

/-- Witness for C10: the row "",2 under headers a,b stores a = 0. -/
theorem parseCSV_empty_cell_zero_witness :
    (["", "2"] : List String)[0]? = some "" ∧
    (["a", "b"].get ⟨0, by decide⟩ ∉ ["a", "b"].drop 1) ∧
    jsGet (parseRowData ["a", "b"] 3 ["", "2"]) (["a", "b"].get ⟨0, by decide⟩) = Value.num 0 :=
  ⟨by decide, by decide,
   parseCSV_empty_cell_zero ["a", "b"] 3 ["", "2"] 0 (by decide) (by decide) (by decide)⟩

/-- C8 counterexample: a CSV whose header row names a column id: the cell
value overwrites the synthetic row index, so the parsed row's id field is
the cell value 7, not the 0-based row index 0. -/
theorem parseCSV_id_header_counterexample :
    parseCSV "id\n7" = [[("id", Value.num 7)]] ∧
    jsGet ((parseCSV "id\n7").headD []) "id" ≠ Value.num 0 := by decide

/-- C8 (amended): provided no header is named id, every parsed row stores
the synthetic 0-based row index under id; a parsed row never has a key
beyond id and the headers whose cell value is available, so missing trailing
columns are simply absent and no error is raised; and with pairwise-distinct
headers, a header other than id whose position is at or past the number of
available values is not a key of the row. -/
theorem parseRowData_spec (headers : List String) (idx : Nat) (values : List String) :
    ("id" ∉ headers → jsGet (parseRowData headers idx values) "id" = Value.num idx) ∧
    (∀ kk ∈ (parseRowData headers idx values).map Prod.fst,
      kk = "id" ∨ kk ∈ headers.take values.length) ∧
    (headers.Nodup → ∀ i, ∀ hlt : i < headers.length, values.length ≤ i →
      headers.get ⟨i, hlt⟩ ≠ "id" →
      headers.get ⟨i, hlt⟩ ∉ (parseRowData headers idx values).map Prod.fst) := by
  have hkeys : ∀ kk ∈ (parseRowData headers idx values).map Prod.fst,
      kk = "id" ∨ kk ∈ headers.take values.length := by
    intro kk hkk
    unfold parseRowData at hkk
    rcases keys_foldl_parseStep values _ _ kk hkk with h1 | ⟨i, s, hmem, hilt, rfl⟩
    · left
      simpa using h1
    · right
      have hget : headers[i]? = some kk := List.mk_mem_enum_iff_getElem?.mp hmem
      have htake : (headers.take values.length)[i]? = some kk := by
        rw [List.getElem?_take, if_pos hilt]
        exact hget
      exact List.getElem?_mem htake
  refine ⟨fun hid => ?_, hkeys, fun hnd i hlt hvl hne hmem => ?_⟩
  · unfold parseRowData jsGet
    rw [getEntry_foldl_parseStep values _ _ "id" ?_]
    · rfl
    · intro p hp hpid
      apply hid
      have := List.enum_map_snd headers
      exact this ▸ (hpid ▸ List.mem_map_of_mem Prod.snd hp)
  · rcases hkeys _ hmem with h1 | h1
    · exact hne h1
    · rcases List.mem_iff_getElem?.mp h1 with ⟨j, hj⟩
      rw [List.getElem?_take] at hj
      by_cases hjvl : j < values.length
      · rw [if_pos hjvl] at hj
        rcases List.getElem?_eq_some.mp hj with ⟨hjlt, hjeq⟩
        have hfin : (⟨j, hjlt⟩ : Fin headers.length) = ⟨i, hlt⟩ := by
          rw [← List.Nodup.get_inj_iff hnd]
          simpa [List.get_eq_getElem] using hjeq
        have : j = i := congrArg Fin.val hfin
        omega
      · rw [if_neg hjvl] at hj
        cases hj

/-- Witness for C8 on headers a,b with a single available cell. -/
theorem parseRowData_spec_witness :
    ("id" ∉ ["a", "b"] ∧ jsGet (parseRowData ["a", "b"] 0 ["1"]) "id" = Value.num 0) ∧
    (["a", "b"].Nodup ∧ (["1"] : List String).length ≤ 1 ∧
      (["a", "b"].get ⟨1, by decide⟩ ≠ "id") ∧
      ["a", "b"].get ⟨1, by decide⟩ ∉ (parseRowData ["a", "b"] 0 ["1"]).map Prod.fst) :=
  ⟨⟨by decide, (parseRowData_spec ["a", "b"] 0 ["1"]).1 (by decide)⟩,
   ⟨by decide, by decide, by decide,
    (parseRowData_spec ["a", "b"] 0 ["1"]).2.2 (by decide) 1 (by decide) (by decide) (by decide)⟩⟩

/-- C9 counterexample: an uploaded test row that already contains a
prediction column: the runner overwrites that field in place, so the
original value is not retained and no field is added. -/
theorem predictRow_overwrites_counterexample :
    predictParseCSV "prediction\nx" = [[("id", Value.num 0), ("prediction", Value.str "x")]] ∧
    jsGet (predictRow TaskType.classification [] 0 0
      [("id", Value.num 0), ("prediction", Value.str "x")]) "prediction" = Value.str "Class A" ∧
    Value.str "Class A" ≠ Value.str "x" ∧
    (predictRow TaskType.classification [] 0 0
      [("id", Value.num 0), ("prediction", Value.str "x")]).length = 2 := by decide

/-- C9 (amended): on a test row with no prediction field, the prediction
runner returns the row with every original field retained in place and
exactly one appended prediction field, whose value is numeric when the task
type is regression and one of the three class labels when it is
classification. -/
theorem predictRow_augments (taskType : TaskType) (featureNames : List String) (rnd : ℚ)
    (cls : Fin 3) (row : Row) (hp : "prediction" ∉ row.map Prod.fst) :
    ∃ v : Value, predictRow taskType featureNames rnd cls row = row ++ [("prediction", v)] ∧
      (taskType = TaskType.regression → ∃ q : ℚ, v = Value.num q) ∧
      (taskType = TaskType.classification →
        v ∈ [Value.str "Class A", Value.str "Class B", Value.str "Class C"]) := by
  cases taskType with
  | regression =>
    refine ⟨Value.num (max 0 ((row.filter (fun p => featureNames.contains p.1)).foldl
        (fun sum p => sum + (match p.2 with | Value.num q => q | _ => 0)) 0
          / (featureNames.length : ℚ) + (rnd - 5 / 10) * 5)),
      ?_, fun _ => ⟨_, rfl⟩, fun h => nomatch h⟩
    unfold predictRow
    exact setEntry_of_not_mem _ _ _ hp
  | classification =>
    refine ⟨Value.str (["Class A", "Class B", "Class C"].getD cls.1 ""), ?_, ?_, ?_⟩
    · unfold predictRow
      exact setEntry_of_not_mem _ _ _ hp
    · intro h
      exact absurd h (by decide)
    · intro h
      rcases cls with ⟨i, hi⟩
      interval_cases i <;> simp

/-- Witness for C9 on a one-field test row. -/
theorem predictRow_augments_witness :
    ("prediction" ∉ ([("id", Value.num 0)] : Row).map Prod.fst) ∧
    ∃ v : Value,
      predictRow TaskType.classification [] 0 1 [("id", Value.num 0)]
        = [("id", Value.num 0)] ++ [("prediction", v)] ∧
      (TaskType.classification = TaskType.regression → ∃ q : ℚ, v = Value.num q) ∧
      (TaskType.classification = TaskType.classification →
        v ∈ [Value.str "Class A", Value.str "Class B", Value.str "Class C"]) :=
  ⟨by decide, predictRow_augments TaskType.classification [] 0 1 [("id", Value.num 0)] (by decide)⟩

end InsightML
